import Mathlib

/-!
Shallow embedding of the DrawTabPenCompat compatibility-table core
(`src/table-renderer.js`, `src/xml-loader.js`).

JS `Map` objects are modelled as insertion-ordered association lists with
string keys; JS `Set` objects of strings as insertion-ordered duplicate-free
lists.  XML elements are modelled by their tag and text content;
`querySelector` is first-match lookup over a row's children.  JS string
comparison (`<`) is modelled by lexicographic comparison of the character
sequences (`strLt`), and the case-insensitive regex flag by lower-casing both
sides (faithful on ASCII, which is all the dataset uses).
-/

/-- Insertion-ordered association list modelling a JS `Map` with string keys. -/
abbrev JMap (α : Type) := List (String × α)

/-- Model of `Map.get(k)`: value at the first (hence unique) entry for `k`. -/
def mapGet? {α : Type} : JMap α → String → Option α
  | [], _ => none
  | e :: rest, k => if e.1 = k then some e.2 else mapGet? rest k

/-- Model of `Map.has(k)`. -/
def mapHas {α : Type} (m : JMap α) (k : String) : Bool :=
  (mapGet? m k).isSome

/-- Model of `Map.set(k, v)`: update the existing entry in place, else append. -/
def mapSet {α : Type} : JMap α → String → α → JMap α
  | [], k, v => [(k, v)]
  | e :: rest, k, v => if e.1 = k then (k, v) :: rest else e :: mapSet rest k v

/-- Keys of a map in insertion order. -/
def mapKeys {α : Type} (m : JMap α) : List String := m.map (·.1)

/-- Model of `Set.add(x)` on an insertion-ordered string set. -/
def setAdd (s : List String) (x : String) : List String :=
  if x ∈ s then s else s ++ [x]

/-- Device definition record stored in `tabletDefs` / `penDefs`
(`{name: getAttribute('name'), familyId: getAttribute('familyid') || ''}`).
A `name` attribute absent from the XML is `null` in JS, modelled as `none`. -/
structure DeviceDef where
  name : Option String
  familyId : String
deriving DecidableEq, Repr

/-- Child element of a `compatrow`: tag plus text content. -/
structure XElem where
  tag : String
  text : String
deriving DecidableEq, Repr

/-- One `<compatrow>` XML element, given by its child elements in document
order. -/
structure XRow where
  children : List XElem
deriving DecidableEq, Repr

/-- First child with the given tag, modelling `row.querySelector(tag)`. -/
def querySel (r : XRow) (t : String) : Option XElem :=
  r.children.find? (fun e => e.tag == t)

/-- Tokenization used throughout the source:
`text.replace(/[\n\r]+/g,' ').trim().split(/\s+/).filter(s => s.length > 0)`.
Splitting on every whitespace character and dropping empty chunks yields the
same token list as the replace/trim/split pipeline. -/
def extractTokens (s : String) : List String :=
  ((List.splitOnP (fun c => c.isWhitespace) s.data).map (fun l => String.mk l)).filter
    (fun t => t.length != 0)

/-- Model of `extractItems(node)` from table-renderer.js. -/
def extractItems (n : Option XElem) : List String :=
  match n with
  | none => []
  | some e => extractTokens e.text

/-- Lexicographic comparison of character lists. -/
def charListLt : List Char → List Char → Bool
  | [], [] => false
  | [], _ :: _ => true
  | _ :: _, [] => false
  | a :: as, b :: bs => if a < b then true else if b < a then false else charListLt as bs

/-- Model of the JS `<` operator on strings: lexicographic comparison of the
character sequences (JS compares UTF-16 code units; this compares code
points, which agrees on all ids the dataset can contain). -/
def strLt (a b : String) : Bool := charListLt a.data b.data

/-- Model of `compareDeviceIds(a, b, defsMap)`: lexicographic on
(familyId, id), an id absent from the map getting `familyId = ""`. -/
def compareDeviceIds (a b : String) (defsMap : JMap DeviceDef) : Int :=
  let defA := (mapGet? defsMap a).getD ⟨some "", ""⟩
  let defB := (mapGet? defsMap b).getD ⟨some "", ""⟩
  if strLt defA.familyId defB.familyId then -1
  else if strLt defB.familyId defA.familyId then 1
  else if strLt a b then -1
  else if strLt b a then 1
  else 0

/-- Nonstrict order induced by the `compareDeviceIds` comparator. -/
def devLe (defsMap : JMap DeviceDef) (a b : String) : Prop :=
  compareDeviceIds a b defsMap ≤ 0

instance devLe.decidableRel (defsMap : JMap DeviceDef) : DecidableRel (devLe defsMap) :=
  fun a b => inferInstanceAs (Decidable (compareDeviceIds a b defsMap ≤ 0))

/-- Model of `sortItems(items, defsMap)`.  The JS comparator returns 0 only on
identical strings, so every correct sort produces the same list; insertion
sort realises it. -/
def sortItems (items : List String) (defsMap : JMap DeviceDef) : List String :=
  List.insertionSort (devLe defsMap) items

/-- Row shape handed to rendering: `{tablets: [...], pens: [...]}`. -/
structure DisplayRow where
  tablets : List String
  pens : List String
deriving DecidableEq, Repr

/-- Tablet tokens of a compatrow, `extractItems(row.querySelector('tablet'))`. -/
def rawTablets (row : XRow) : List String :=
  extractItems (querySel row "tablet")

/-- Pen tokens of a compatrow, `extractItems(row.querySelector('pen'))`. -/
def rawPens (row : XRow) : List String :=
  extractItems (querySel row "pen")

/-- Model of `getRowsGrouped`. -/
def getRowsGrouped (rows : List XRow) (tabletDefs penDefs : JMap DeviceDef) :
    List DisplayRow :=
  rows.map (fun row =>
    { tablets := sortItems (rawTablets row) tabletDefs
      pens := sortItems (rawPens row) penDefs })

/-- Model of `getRowsUngrouped`: one singleton/singleton row per pair of the
sorted cross product. -/
def getRowsUngrouped (rows : List XRow) (tabletDefs penDefs : JMap DeviceDef) :
    List DisplayRow :=
  rows.flatMap (fun row =>
    let tablets := sortItems (rawTablets row) tabletDefs
    let pens := sortItems (rawPens row) penDefs
    tablets.flatMap (fun t => pens.map (fun p => ⟨[t], [p]⟩)))

/-- Model of `m.get(k).add(v)` for each `v` after `if (!m.has(k)) m.set(k, new Set())`:
extend (or create) the set stored at `k` with the given values. -/
def indexAdd : JMap (List String) → String → List String → JMap (List String)
  | [], k, vs => [(k, vs.foldl setAdd [])]
  | e :: rest, k, vs =>
    if e.1 = k then (e.1, vs.foldl setAdd e.2) :: rest else e :: indexAdd rest k vs

/-- Accumulation loop shared by `getRowsByPen` / `getRowsByTablet`: for each
(keys, values) pair, add all values to each key's set. -/
def buildPairIndex (pairs : List (List String × List String)) : JMap (List String) :=
  pairs.foldl (fun m pr => pr.1.foldl (fun m k => indexAdd m k pr.2) m) []

/-- Comparator relation used by the final `.sort` of `getRowsByPen`. -/
def rowLeByPen (penDefs : JMap DeviceDef) (a b : DisplayRow) : Prop :=
  devLe penDefs (a.pens.headD "") (b.pens.headD "")

instance rowLeByPen.decidableRel (penDefs : JMap DeviceDef) :
    DecidableRel (rowLeByPen penDefs) :=
  fun a b => inferInstanceAs (Decidable (devLe penDefs (a.pens.headD "") (b.pens.headD "")))

/-- Comparator relation used by the final `.sort` of `getRowsByTablet`. -/
def rowLeByTablet (tabletDefs : JMap DeviceDef) (a b : DisplayRow) : Prop :=
  devLe tabletDefs (a.tablets.headD "") (b.tablets.headD "")

instance rowLeByTablet.decidableRel (tabletDefs : JMap DeviceDef) :
    DecidableRel (rowLeByTablet tabletDefs) :=
  fun a b =>
    inferInstanceAs (Decidable (devLe tabletDefs (a.tablets.headD "") (b.tablets.headD "")))

/-- Model of `getRowsByPen`: per distinct pen, the union of the tablets of
every row containing it, then sort by the pen key.  The comparator is zero
only on equal pen ids and the pen keys are pairwise distinct, so the JS sort
result is the unique sorted arrangement, realised here by insertion sort. -/
def getRowsByPen (rows : List XRow) (tabletDefs penDefs : JMap DeviceDef) :
    List DisplayRow :=
  let penToTablets := buildPairIndex (rows.map (fun r => (rawPens r, rawTablets r)))
  let displayRows := penToTablets.map
    (fun e => DisplayRow.mk (sortItems e.2 tabletDefs) [e.1])
  List.insertionSort (rowLeByPen penDefs) displayRows

/-- Model of `getRowsByTablet`, the mirror image of `getRowsByPen`. -/
def getRowsByTablet (rows : List XRow) (tabletDefs penDefs : JMap DeviceDef) :
    List DisplayRow :=
  let tabletToPens := buildPairIndex (rows.map (fun r => (rawTablets r, rawPens r)))
  let displayRows := tabletToPens.map
    (fun e => DisplayRow.mk [e.1] (sortItems e.2 penDefs))
  List.insertionSort (rowLeByTablet tabletDefs) displayRows

/-- Distinct ids used across all rows under one tag, as accumulated into the
`totalUniqueTablets` / `totalUniquePens` sets of the statistics pass. -/
def totalUniqueIds (tag : String) (rows : List XRow) : List String :=
  rows.foldl (fun acc r => (extractItems (querySel r tag)).foldl setAdd acc) []

/-- Glob pattern token after `createGlobRegex` compilation: every character
other than `*` and `?` is escaped into (or already is) a literal. -/
inductive GlobTok where
  | lit (c : Char)
  | one
  | star
deriving DecidableEq, Repr

/-- Per-character compilation performed by `createGlobRegex`:
`*` becomes `.*`, `?` becomes `.`, everything else matches literally. -/
def globCompile (p : List Char) : List GlobTok :=
  p.map (fun c =>
    if c = '*' then GlobTok.star else if c = '?' then GlobTok.one else GlobTok.lit c)

/-- Model of `createGlobRegex(pattern)` as the compiled token list. -/
def createGlobRegex (pattern : String) : List GlobTok :=
  globCompile pattern.data

/-- JS `.` without the `s` flag matches any character except the four line
terminators. -/
def dotMatches (c : Char) : Bool :=
  !(c == '\n' || c == '\r' || c.toNat == 0x2028 || c.toNat == 0x2029)

/-- Suffixes of `s` reachable by letting `.*` consume zero or more
dot-matching characters from the front. -/
def starSuffixes : List Char → List (List Char)
  | [] => [[]]
  | d :: s => (d :: s) :: (if dotMatches d then starSuffixes s else [])

/-- Matching of a compiled glob pattern against a prefix of `s` (the match may
stop before the end of `s`, as `RegExp.test` does).  Case-insensitivity is
modelled by lower-casing both characters. -/
def matchToks : List GlobTok → List Char → Bool
  | [], _ => true
  | GlobTok.lit _ :: _, [] => false
  | GlobTok.lit c :: ts, d :: s => (c.toLower == d.toLower) && matchToks ts s
  | GlobTok.one :: _, [] => false
  | GlobTok.one :: ts, d :: s => dotMatches d && matchToks ts s
  | GlobTok.star :: ts, s => (starSuffixes s).any (fun suf => matchToks ts suf)

/-- Model of `regex.test(s)` for a compiled glob: unanchored search, i.e. the
pattern may start matching at any position of `s`. -/
def regexTest (r : List GlobTok) (s : String) : Bool :=
  s.data.tails.any (fun suf => matchToks r suf)

/-- Model of `input.trim()`. -/
def jsTrim (s : List Char) : List Char :=
  ((s.dropWhile Char.isWhitespace).reverse.dropWhile Char.isWhitespace).reverse

/-- Scanner realising repeated `exec` of `/"([^"]+)"|(\S+)/g`: at the leftmost
candidate position, a double-quoted span with nonempty content and a closing
quote wins (quotes consumed), otherwise a maximal nonblank run is the token.
The fuel argument only serves structural recursion: every step consumes at
least one character, so fuel equal to the input length never runs out. -/
def scanTokensAux : Nat → List Char → List String
  | 0, _ => []
  | _, [] => []
  | fuel + 1, c :: rest =>
    if c.isWhitespace then scanTokensAux fuel rest
    else if c = '"' then
      let content := rest.takeWhile (fun d => !(d == '"'))
      let rest2 := rest.dropWhile (fun d => !(d == '"'))
      if content.length != 0 && !rest2.isEmpty then
        String.mk content :: scanTokensAux fuel rest2.tail
      else
        String.mk (c :: rest.takeWhile (fun d => !d.isWhitespace)) ::
          scanTokensAux fuel (rest.dropWhile (fun d => !d.isWhitespace))
    else
      String.mk (c :: rest.takeWhile (fun d => !d.isWhitespace)) ::
        scanTokensAux fuel (rest.dropWhile (fun d => !d.isWhitespace))

/-- Token list of the search-term regex scan over the whole input. -/
def scanTokens (s : List Char) : List String :=
  scanTokensAux s.length s

/-- Model of `parseSearchTokens(searchInput.value.trim())`.  The `!input`
early return coincides with the scanner's output on the empty list. -/
def parseSearchTokens (input : List Char) : List String :=
  scanTokens (jsTrim input)

/-- Name lookup inside the filter predicate of `renderCompatTable`: tablet
definitions are consulted first, then pen definitions; a missing or null
`name` behaves like the empty string (both are falsy in JS). -/
def itemDisplayName (tabletDefs penDefs : JMap DeviceDef) (item : String) : String :=
  match mapGet? tabletDefs item with
  | some d => d.name.getD ""
  | none =>
    match mapGet? penDefs item with
    | some d => d.name.getD ""
    | none => ""

/-- Body of the filter callback of `renderCompatTable`: every regex must match
at least one item of the row, by raw id or (when truthy) by display name. -/
def rowMatchesSearch (tabletDefs penDefs : JMap DeviceDef)
    (regexes : List (List GlobTok)) (row : DisplayRow) : Bool :=
  regexes.all (fun regex =>
    (row.tablets ++ row.pens).any (fun item =>
      let name := itemDisplayName tabletDefs penDefs item
      regexTest regex item || (!(name == "") && regexTest regex name)))

/-- Model of step 1 of `renderCompatTable`: compile the query and filter the
display rows (`if (searchRegexes.length === 0) return true`). -/
def filterRows (tabletDefs penDefs : JMap DeviceDef) (query : List Char)
    (rows : List DisplayRow) : List DisplayRow :=
  let searchRegexes := (parseSearchTokens query).map createGlobRegex
  rows.filter (fun row =>
    searchRegexes.isEmpty || rowMatchesSearch tabletDefs penDefs searchRegexes row)

/-- One `<tabletdef>` / `<pendef>` element; `name` and `familyid` attributes
may be absent (`getAttribute` returns null). -/
structure DefElem where
  id : String
  name : Option String
  familyid : Option String
deriving DecidableEq, Repr

/-- One `<tabletfamilydef>` / `<penfamilydef>` element. -/
structure FamDefElem where
  id : String
  name : Option String
deriving DecidableEq, Repr

/-- Parsed XML document as consumed by `fetchAndParseXML` after DOM parsing. -/
structure XDoc where
  tabletdefs : List DefElem
  pendefs : List DefElem
  tabletfamilydefs : List FamDefElem
  penfamilydefs : List FamDefElem
  compatrows : List XRow
deriving DecidableEq, Repr

/-- Body of the definition-parsing loop of `fetchAndParseXML`: record the
`DeviceDef` and, only for a truthy `familyid` attribute, extend the reverse
index family-id → member device ids. -/
def defStep (acc : JMap DeviceDef × JMap (List String)) (d : DefElem) :
    JMap DeviceDef × JMap (List String) :=
  let familyId := d.familyid.getD ""
  (mapSet acc.1 d.id ⟨d.name, familyId⟩,
   if familyId = "" then acc.2 else indexAdd acc.2 familyId [d.id])

/-- Definition-parsing loop of `fetchAndParseXML`: build the `DeviceDef` map
and the reverse index.  The family label tables play no part here. -/
def buildDefsAndIndex (defs : List DefElem) : JMap DeviceDef × JMap (List String) :=
  defs.foldl defStep ([], [])

/-- Label-table loop for `<penfamilydef>` / `<tabletfamilydef>` elements. -/
def buildFamDefs (fams : List FamDefElem) : JMap (Option String) :=
  fams.foldl (fun m f => mapSet m f.id f.name) []

/-- One expansion step over a family-reference token: a known family
contributes its members to the set, an unknown one contributes nothing and
appends a `console.warn` diagnostic. -/
def expandStep (idx : JMap (List String)) (acc : List String × List String)
    (f : String) : List String × List String :=
  match mapGet? idx f with
  | some members => (members.foldl setAdd acc.1, acc.2)
  | none => (acc.1, acc.2 ++ [f])

/-- Direct ids followed by family expansion, as performed per row by
`fetchAndParseXML`; returns the effective id set (insertion order) and the
unknown-family diagnostics. -/
def expandFams (idx : JMap (List String)) (direct : List String)
    (fams : List String) : List String × List String :=
  fams.foldl (expandStep idx) (direct.foldl setAdd [], [])

/-- Effective row produced by `fetchAndParseXML` for one `compatrow`. -/
structure ProcRow where
  tablets : List String
  pens : List String
deriving DecidableEq, Repr

/-- Row-processing body of `fetchAndParseXML`: direct tablets, tablet-family
expansion, direct pens, pen-family expansion; returns the effective row and
the unknown-family diagnostics in emission order. -/
def processRow (familyToTablets familyToPens : JMap (List String)) (row : XRow) :
    ProcRow × List String :=
  let (tablets, diagT) := expandFams familyToTablets
    (extractItems (querySel row "tablet"))
    (extractItems (querySel row "tabletfamily"))
  let (pens, diagP) := expandFams familyToPens
    (extractItems (querySel row "pen"))
    (extractItems (querySel row "penfamily"))
  (⟨tablets, pens⟩, diagT ++ diagP)

/-- Result aggregate of `fetchAndParseXML`. -/
structure Dataset where
  rows : List ProcRow
  tabletDefs : JMap DeviceDef
  penDefs : JMap DeviceDef
  penFamilyDefs : JMap (Option String)
  tabletFamilyDefs : JMap (Option String)
deriving DecidableEq, Repr

/-- Data-construction part of `fetchAndParseXML` (diagnostics go to the
console and are not part of the returned value). -/
def parseDataset (doc : XDoc) : Dataset :=
  let tIdx := buildDefsAndIndex doc.tabletdefs
  let pIdx := buildDefsAndIndex doc.pendefs
  { rows := doc.compatrows.map (fun r => (processRow tIdx.2 pIdx.2 r).1)
    tabletDefs := tIdx.1
    penDefs := pIdx.1
    penFamilyDefs := buildFamDefs doc.penfamilydefs
    tabletFamilyDefs := buildFamDefs doc.tabletfamilydefs }

/-- Model of `merged.set(key, val)` for every entry of a source map, in
insertion order. -/
def mapSetAll {α : Type} (m : JMap α) (entries : JMap α) : JMap α :=
  entries.foldl (fun m e => mapSet m e.1 e.2) m

/-- Model of `mergeCompatData(dataList)`: rows concatenated, definition maps
folded with last-write-wins `Map.set`. -/
def mergeCompatData (dataList : List Dataset) : Dataset :=
  dataList.foldl (fun acc d =>
    { rows := acc.rows ++ d.rows
      tabletDefs := mapSetAll acc.tabletDefs d.tabletDefs
      penDefs := mapSetAll acc.penDefs d.penDefs
      penFamilyDefs := mapSetAll acc.penFamilyDefs d.penFamilyDefs
      tabletFamilyDefs := mapSetAll acc.tabletFamilyDefs d.tabletFamilyDefs })
    ⟨[], [], [], [], []⟩


/-! ### Basic lemmas about the JS `Map` / `Set` models -/

theorem mapGet?_mapSet {α : Type} (m : JMap α) (k : String) (v : α) (q : String) :
    mapGet? (mapSet m k v) q = if q = k then some v else mapGet? m q := by
  induction m with
  | nil =>
    by_cases h : q = k
    · subst h; simp [mapSet, mapGet?]
    · simp [mapSet, mapGet?, h, Ne.symm h]
  | cons e rest ih =>
    simp only [mapSet]
    by_cases hek : e.1 = k
    · rw [if_pos hek]
      by_cases hq : q = k
      · subst hq; simp [mapGet?]
      · have he : e.1 ≠ q := fun hh => hq (hh.symm.trans hek)
        simp [mapGet?, Ne.symm hq, hq, he]
    · rw [if_neg hek]
      by_cases heq : e.1 = q
      · have hqk : ¬q = k := fun hh => hek (heq.trans hh)
        simp [mapGet?, heq, hqk]
      · simp [mapGet?, heq, ih]

theorem mapGet?_eq_none_iff {α : Type} (m : JMap α) (k : String) :
    mapGet? m k = none ↔ k ∉ mapKeys m := by
  induction m with
  | nil => simp [mapGet?, mapKeys]
  | cons e rest ih =>
    by_cases h : e.1 = k
    · simp [mapGet?, mapKeys, h]
    · simp only [mapGet?, if_neg h, mapKeys, List.map_cons, List.mem_cons, ih]
      constructor
      · rintro hk (rfl | hmem)
        · exact h rfl
        · exact hk hmem
      · intro hk hmem
        exact hk (Or.inr hmem)

theorem mapHas_iff_mem_keys {α : Type} (m : JMap α) (k : String) :
    mapHas m k = true ↔ k ∈ mapKeys m := by
  rw [mapHas, Option.isSome_iff_ne_none, ne_eq, mapGet?_eq_none_iff, not_not]

theorem mapGet?_of_nodup {α : Type} (m : JMap α) (k : String) (v : α)
    (hnd : (mapKeys m).Nodup) (hmem : (k, v) ∈ m) : mapGet? m k = some v := by
  induction m with
  | nil => cases hmem
  | cons e rest ih =>
    rcases List.mem_cons.mp hmem with h | h
    · simp [mapGet?, ← h]
    · have hk : k ∈ mapKeys rest := List.mem_map.mpr ⟨(k, v), h, rfl⟩
      have hne : e.1 ≠ k := by
        rintro rfl
        exact (List.nodup_cons.mp hnd).1 hk
      simpa [mapGet?, hne] using ih (List.nodup_cons.mp hnd).2 h

theorem mem_setAdd (s : List String) (x y : String) :
    y ∈ setAdd s x ↔ y ∈ s ∨ y = x := by
  by_cases h : x ∈ s
  · simp only [setAdd, if_pos h]
    constructor
    · exact Or.inl
    · rintro (hy | rfl)
      · exact hy
      · exact h
  · simp [setAdd, if_neg h]

theorem nodup_setAdd (s : List String) (x : String) (h : s.Nodup) :
    (setAdd s x).Nodup := by
  by_cases hx : x ∈ s
  · simpa [setAdd, if_pos hx] using h
  · simp [setAdd, if_neg hx, List.nodup_append, h, hx]

theorem mem_foldl_setAdd (vs : List String) (s : List String) (y : String) :
    y ∈ List.foldl setAdd s vs ↔ y ∈ s ∨ y ∈ vs := by
  induction vs generalizing s with
  | nil => simp
  | cons v vs ih =>
    rw [List.foldl_cons, ih, mem_setAdd]
    simp [or_assoc, or_comm (a := y = v)]

theorem nodup_foldl_setAdd (vs : List String) (s : List String) (h : s.Nodup) :
    (List.foldl setAdd s vs).Nodup := by
  induction vs generalizing s with
  | nil => exact h
  | cons v vs ih => exact ih _ (nodup_setAdd _ _ h)

theorem foldl_setAdd_of_subset (vs : List String) (s : List String)
    (h : ∀ v ∈ vs, v ∈ s) : List.foldl setAdd s vs = s := by
  induction vs with
  | nil => rfl
  | cons v vs ih =>
    have hv : setAdd s v = s := by simp [setAdd, h v (by simp)]
    simp only [List.foldl_cons, hv]
    exact ih fun w hw => h w (by simp [hw])

/-! ### Order lemmas for `strLt` and `compareDeviceIds` -/

theorem bool_eq_false {b : Bool} (h : ¬b = true) : b = false := by
  cases b
  · rfl
  · exact absurd rfl h

theorem charListLt_irrefl (l : List Char) : charListLt l l = false := by
  induction l with
  | nil => rfl
  | cons a as ih => simp [charListLt, lt_irrefl, ih]

theorem charListLt_trans {l1 l2 l3 : List Char} (h1 : charListLt l1 l2 = true)
    (h2 : charListLt l2 l3 = true) : charListLt l1 l3 = true := by
  induction l1 generalizing l2 l3 with
  | nil =>
    cases l2 with
    | nil => exact absurd h1 (by simp [charListLt])
    | cons b bs =>
      cases l3 with
      | nil => exact absurd h2 (by simp [charListLt])
      | cons c cs => rfl
  | cons a as ih =>
    cases l2 with
    | nil => exact absurd h1 (by simp [charListLt])
    | cons b bs =>
      cases l3 with
      | nil => exact absurd h2 (by simp [charListLt])
      | cons c cs =>
        simp only [charListLt] at h1 h2 ⊢
        by_cases hab : a < b
        · by_cases hbc : b < c
          · simp [lt_trans hab hbc]
          · by_cases hcb : c < b
            · exact absurd h2 (by simp [hbc, hcb])
            · have : b = c := le_antisymm (not_lt.mp hcb) (not_lt.mp hbc)
              simp [this ▸ hab]
        · by_cases hba : b < a
          · exact absurd h1 (by simp [hab, hba])
          · have hae : a = b := le_antisymm (not_lt.mp hba) (not_lt.mp hab)
            subst hae
            by_cases hbc : a < c
            · simp [hbc]
            · by_cases hcb : c < a
              · exact absurd h2 (by simp [hbc, hcb])
              · simp only [hab, hba, if_neg, ite_false] at h1
                simp only [hbc, hcb, if_neg, ite_false] at h2
                simp [hbc, hcb, ih (by simpa using h1) (by simpa using h2)]

theorem charListLt_asymm {l1 l2 : List Char} (h : charListLt l1 l2 = true) :
    charListLt l2 l1 = false := by
  induction l1 generalizing l2 with
  | nil =>
    cases l2 with
    | nil => exact absurd h (by simp [charListLt])
    | cons b bs => rfl
  | cons a as ih =>
    cases l2 with
    | nil => exact absurd h (by simp [charListLt])
    | cons b bs =>
      simp only [charListLt] at h ⊢
      by_cases hab : a < b
      · simp [lt_asymm hab, hab]
      · by_cases hba : b < a
        · exact absurd h (by simp [hab, hba])
        · simp only [hab, hba, if_neg, ite_false] at h
          simp [hab, hba, ih (by simpa using h)]

theorem charListLt_connex {l1 l2 : List Char} (h1 : charListLt l1 l2 = false)
    (h2 : charListLt l2 l1 = false) : l1 = l2 := by
  induction l1 generalizing l2 with
  | nil =>
    cases l2 with
    | nil => rfl
    | cons b bs => exact absurd h1 (by simp [charListLt])
  | cons a as ih =>
    cases l2 with
    | nil => exact absurd h2 (by simp [charListLt])
    | cons b bs =>
      simp only [charListLt] at h1 h2
      by_cases hab : a < b
      · exact absurd h1 (by simp [hab])
      · by_cases hba : b < a
        · exact absurd h2 (by simp [hab, hba])
        · have hae : a = b := le_antisymm (not_lt.mp hba) (not_lt.mp hab)
          subst hae
          simp only [lt_irrefl, if_neg, ite_false] at h1 h2
          rw [ih (by simpa using h1) (by simpa using h2)]

theorem strLt_irrefl (s : String) : strLt s s = false :=
  charListLt_irrefl s.data

theorem strLt_trans {a b c : String} (h1 : strLt a b = true) (h2 : strLt b c = true) :
    strLt a c = true :=
  charListLt_trans h1 h2

theorem strLt_asymm {a b : String} (h : strLt a b = true) : strLt b a = false :=
  charListLt_asymm h

theorem strLt_connex {a b : String} (h1 : strLt a b = false) (h2 : strLt b a = false) :
    a = b := by
  cases a with
  | mk da =>
    cases b with
    | mk db =>
      have : da = db := charListLt_connex h1 h2
      rw [this]

theorem strLt_trichotomy (a b : String) :
    strLt a b = true ∨ strLt b a = true ∨ a = b := by
  cases hab : strLt a b
  · cases hba : strLt b a
    · exact Or.inr (Or.inr (strLt_connex hab hba))
    · exact Or.inr (Or.inl rfl)
  · exact Or.inl rfl

theorem strLt_neg_trans {a b c : String} (h1 : strLt b a = false)
    (h2 : strLt c b = false) : strLt c a = false := by
  rcases hv : strLt c a
  · rfl
  · rcases strLt_trichotomy c b with h | h | h
    · exact absurd h (by simp [h2])
    · exact absurd (strLt_trans h hv) (by simp [h1])
    · subst h
      exact absurd hv (by simp [h1])

/-- Family key used by the comparator: the `familyId` of the definition, or
`""` when the id has no definition. -/
def famOf (defsMap : JMap DeviceDef) (x : String) : String :=
  ((mapGet? defsMap x).getD ⟨some "", ""⟩).familyId

theorem compareDeviceIds_def (a b : String) (d : JMap DeviceDef) :
    compareDeviceIds a b d =
      if strLt (famOf d a) (famOf d b) then -1
      else if strLt (famOf d b) (famOf d a) then 1
      else if strLt a b then -1
      else if strLt b a then 1
      else 0 := rfl

theorem compareDeviceIds_lt_iff (a b : String) (d : JMap DeviceDef) :
    compareDeviceIds a b d < 0 ↔
      strLt (famOf d a) (famOf d b) = true ∨
        (famOf d a = famOf d b ∧ strLt a b = true) := by
  rw [compareDeviceIds_def]
  split_ifs with h1 h2 h3 h4
  · exact iff_of_true (by norm_num) (Or.inl h1)
  · refine iff_of_false (by norm_num) ?_
    rintro (h | ⟨he, _⟩)
    · exact h1 h
    · rw [he] at h2
      exact absurd h2 (by simp [strLt_irrefl])
  · exact iff_of_true (by norm_num)
      (Or.inr ⟨strLt_connex (bool_eq_false h1) (bool_eq_false h2), h3⟩)
  · refine iff_of_false (by norm_num) ?_
    rintro (h | ⟨_, hab⟩)
    · exact h1 h
    · exact h3 hab
  · refine iff_of_false (by norm_num) ?_
    rintro (h | ⟨_, hab⟩)
    · exact h1 h
    · exact h3 hab

theorem compareDeviceIds_eq_zero_iff (a b : String) (d : JMap DeviceDef) :
    compareDeviceIds a b d = 0 ↔ a = b := by
  rw [compareDeviceIds_def]
  split_ifs with h1 h2 h3 h4
  · refine iff_of_false (by norm_num) ?_
    rintro rfl
    exact absurd h1 (by simp [strLt_irrefl])
  · refine iff_of_false (by norm_num) ?_
    rintro rfl
    exact absurd h2 (by simp [strLt_irrefl])
  · refine iff_of_false (by norm_num) ?_
    rintro rfl
    exact absurd h3 (by simp [strLt_irrefl])
  · refine iff_of_false (by norm_num) ?_
    rintro rfl
    exact absurd h4 (by simp [strLt_irrefl])
  · exact iff_of_true rfl (strLt_connex (bool_eq_false h3) (bool_eq_false h4))

theorem compareDeviceIds_le_iff (a b : String) (d : JMap DeviceDef) :
    compareDeviceIds a b d ≤ 0 ↔
      strLt (famOf d a) (famOf d b) = true ∨
        (famOf d a = famOf d b ∧ strLt b a = false) := by
  constructor
  · intro h
    rcases lt_or_eq_of_le h with h | h
    · rcases (compareDeviceIds_lt_iff a b d).mp h with h | ⟨he, hab⟩
      · exact Or.inl h
      · exact Or.inr ⟨he, strLt_asymm hab⟩
    · rcases (compareDeviceIds_eq_zero_iff a b d).mp h with rfl
      exact Or.inr ⟨rfl, strLt_irrefl a⟩
  · rintro (h | ⟨he, hba⟩)
    · exact le_of_lt ((compareDeviceIds_lt_iff a b d).mpr (Or.inl h))
    · rcases hab : strLt a b
      · rcases strLt_connex hab hba
        exact le_of_eq ((compareDeviceIds_eq_zero_iff a a d).mpr rfl)
      · exact le_of_lt ((compareDeviceIds_lt_iff a b d).mpr (Or.inr ⟨he, hab⟩))

theorem devLe_trans (d : JMap DeviceDef) (a b c : String)
    (hab : devLe d a b) (hbc : devLe d b c) : devLe d a c := by
  rw [devLe, compareDeviceIds_le_iff] at *
  rcases hab with h1 | ⟨e1, l1⟩ <;> rcases hbc with h2 | ⟨e2, l2⟩
  · exact Or.inl (strLt_trans h1 h2)
  · exact Or.inl (e2 ▸ h1)
  · exact Or.inl (e1 ▸ h2)
  · exact Or.inr ⟨e1.trans e2, strLt_neg_trans l1 l2⟩

theorem devLe_antisymm (d : JMap DeviceDef) (a b : String)
    (hab : devLe d a b) (hba : devLe d b a) : a = b := by
  rw [devLe, compareDeviceIds_le_iff] at *
  rcases hab with h1 | ⟨e1, l1⟩ <;> rcases hba with h2 | ⟨e2, l2⟩
  · exact absurd h2 (by simp [strLt_asymm h1])
  · rw [e2] at h1
    exact absurd h1 (by simp [strLt_irrefl])
  · rw [e1] at h2
    exact absurd h2 (by simp [strLt_irrefl])
  · exact strLt_connex l2 l1

theorem devLe_total (d : JMap DeviceDef) (a b : String) :
    devLe d a b ∨ devLe d b a := by
  rw [devLe, devLe, compareDeviceIds_le_iff, compareDeviceIds_le_iff]
  rcases strLt_trichotomy (famOf d a) (famOf d b) with h | h | h
  · exact Or.inl (Or.inl h)
  · exact Or.inr (Or.inl h)
  · rcases strLt_trichotomy a b with hab | hab | hab
    · exact Or.inl (Or.inr ⟨h, strLt_asymm hab⟩)
    · exact Or.inr (Or.inr ⟨h.symm, strLt_asymm hab⟩)
    · exact Or.inl (Or.inr ⟨h, hab ▸ strLt_irrefl a⟩)

instance devLe.isTrans (d : JMap DeviceDef) : IsTrans String (devLe d) :=
  ⟨devLe_trans d⟩

instance devLe.isTotal (d : JMap DeviceDef) : IsTotal String (devLe d) :=
  ⟨devLe_total d⟩

instance rowLeByPen.isTrans (d : JMap DeviceDef) : IsTrans DisplayRow (rowLeByPen d) :=
  ⟨fun _ _ _ => devLe_trans d _ _ _⟩

instance rowLeByPen.isTotal (d : JMap DeviceDef) : IsTotal DisplayRow (rowLeByPen d) :=
  ⟨fun a b => devLe_total d (a.pens.headD "") (b.pens.headD "")⟩

instance rowLeByTablet.isTrans (d : JMap DeviceDef) :
    IsTrans DisplayRow (rowLeByTablet d) :=
  ⟨fun _ _ _ => devLe_trans d _ _ _⟩

instance rowLeByTablet.isTotal (d : JMap DeviceDef) :
    IsTotal DisplayRow (rowLeByTablet d) :=
  ⟨fun a b => devLe_total d (a.tablets.headD "") (b.tablets.headD "")⟩

theorem sortItems_perm (items : List String) (d : JMap DeviceDef) :
    List.Perm (sortItems items d) items :=
  List.perm_insertionSort _ _

theorem sortItems_mem (items : List String) (d : JMap DeviceDef) (x : String) :
    x ∈ sortItems items d ↔ x ∈ items :=
  (sortItems_perm items d).mem_iff

theorem sortItems_length (items : List String) (d : JMap DeviceDef) :
    (sortItems items d).length = items.length :=
  (sortItems_perm items d).length_eq

theorem sortItems_sorted (items : List String) (d : JMap DeviceDef) :
    List.Pairwise (devLe d) (sortItems items d) :=
  List.sorted_insertionSort (devLe d) items

theorem sortItems_nodup (items : List String) (d : JMap DeviceDef)
    (h : items.Nodup) : (sortItems items d).Nodup :=
  ((sortItems_perm items d).nodup_iff).mpr h

/-! ### Claim C1: glob compilation examples -/

/-- C1 counterexample.  The claim states that the compiled pattern for
`"abc*"` does not match `"xabc"`.  It does: matching is unanchored substring
search (as the claim itself stipulates), and `"xabc"` contains `"abc"` at
offset 1, after which `.*` matches the empty remainder. -/
theorem c1_counterexample_xabc :
    regexTest (createGlobRegex "abc*") "xabc" = true := by decide

/-- C1 (amended): glob compilation per `createGlobRegex`.  For the pattern
`"abc*"`, the compiled case-insensitive matcher matches `"abcdef"`,
`"ABC123"`, and also `"xabc"` (unanchored substring search finds `"abc"` at
offset 1); for the pattern `"a?c"`, it matches `"abc"` but matches neither
`"ac"` nor `"abbc"`, where matching is the unanchored substring search of the
compiled pattern with `*` meaning zero or more of any character and `?`
meaning exactly one of any character. -/
theorem c1_glob_examples :
    regexTest (createGlobRegex "abc*") "abcdef" = true ∧
    regexTest (createGlobRegex "abc*") "ABC123" = true ∧
    regexTest (createGlobRegex "abc*") "xabc" = true ∧
    regexTest (createGlobRegex "a?c") "abc" = true ∧
    regexTest (createGlobRegex "a?c") "ac" = false ∧
    regexTest (createGlobRegex "a?c") "abbc" = false := by decide

/-! ### Claim C5: cardinality of the ungrouped projection -/

/-- C5: for every list of compatrows, the `ungrouped` projection emits, per
source row, one display row per (tablet, pen) pair of the sorted cross
product, so its total length is the sum over rows of |tablets| × |pens|, and
every emitted display row carries exactly one tablet and one pen. -/
theorem c5_ungrouped_cardinality :
    ∀ (rows : List XRow) (tabletDefs penDefs : JMap DeviceDef),
      (getRowsUngrouped rows tabletDefs penDefs).length =
        (rows.map (fun r => (rawTablets r).length * (rawPens r).length)).sum ∧
      ∀ dr ∈ getRowsUngrouped rows tabletDefs penDefs,
        dr.tablets.length = 1 ∧ dr.pens.length = 1 := by
  intro rows tabletDefs penDefs
  constructor
  · rw [getRowsUngrouped, List.length_flatMap]
    congr 1
    apply List.map_congr_left
    intro r _
    simp only [Function.comp_apply, List.length_flatMap, Function.comp_def,
      List.length_map, List.map_const', List.sum_replicate, smul_eq_mul,
      sortItems_length]
  · intro dr hdr
    rw [getRowsUngrouped, List.mem_flatMap] at hdr
    obtain ⟨r, _, hdr⟩ := hdr
    rw [List.mem_flatMap] at hdr
    obtain ⟨t, _, hdr⟩ := hdr
    rw [List.mem_map] at hdr
    obtain ⟨p, _, rfl⟩ := hdr
    exact ⟨rfl, rfl⟩

/-- C5 witness: concrete instance with a 2×2 row and a 1×1 row. -/
theorem c5_ungrouped_cardinality_witness :
    (getRowsUngrouped
        [⟨[⟨"tablet", "T2 T1"⟩, ⟨"pen", "P1 P2"⟩]⟩, ⟨[⟨"tablet", "T3"⟩, ⟨"pen", "P3"⟩]⟩]
        [] []).length = 5 ∧
      DisplayRow.mk ["T1"] ["P1"] ∈
        getRowsUngrouped
          [⟨[⟨"tablet", "T2 T1"⟩, ⟨"pen", "P1 P2"⟩]⟩, ⟨[⟨"tablet", "T3"⟩, ⟨"pen", "P3"⟩]⟩]
          [] [] ∧
      (DisplayRow.mk ["T1"] ["P1"]).tablets.length = 1 := by
  refine ⟨?_, by decide, ?_⟩
  · rw [(c5_ungrouped_cardinality
      [⟨[⟨"tablet", "T2 T1"⟩, ⟨"pen", "P1 P2"⟩]⟩, ⟨[⟨"tablet", "T3"⟩, ⟨"pen", "P3"⟩]⟩]
      [] []).1]
    decide
  · exact ((c5_ungrouped_cardinality
      [⟨[⟨"tablet", "T2 T1"⟩, ⟨"pen", "P1 P2"⟩]⟩, ⟨[⟨"tablet", "T3"⟩, ⟨"pen", "P3"⟩]⟩]
      [] []).2 ⟨["T1"], ["P1"]⟩ (by decide)).1

/-! ### Claim C6: `compareDeviceIds` is a total order -/

/-- C6: `compareDeviceIds(a, b, defs)` is a total order on device ids:
antisymmetric, transitive, and total, and it agrees with lexicographic
comparison of the tuples (familyId-per-defs, id), where an id absent from
`defs` is treated as having familyId `""` (so undefined ids sort first within
the family component, ties broken by id ascending). -/
theorem c6_compareDeviceIds_total_order :
    ∀ (defs : JMap DeviceDef) (a b c : String),
      (compareDeviceIds a b defs ≤ 0 → compareDeviceIds b a defs ≤ 0 → a = b) ∧
      (compareDeviceIds a b defs ≤ 0 → compareDeviceIds b c defs ≤ 0 →
        compareDeviceIds a c defs ≤ 0) ∧
      (compareDeviceIds a b defs ≤ 0 ∨ compareDeviceIds b a defs ≤ 0) ∧
      (compareDeviceIds a b defs < 0 ↔
        (strLt (famOf defs a) (famOf defs b) = true ∨
          (famOf defs a = famOf defs b ∧ strLt a b = true))) ∧
      (mapGet? defs a = none → famOf defs a = "") := by
  intro defs a b c
  refine ⟨devLe_antisymm defs a b, devLe_trans defs a b c, devLe_total defs a b,
    compareDeviceIds_lt_iff a b defs, ?_⟩
  intro h
  rw [famOf, h]
  rfl

/-- C6 witness: an undefined id sorts before a defined one with a nonempty
family id, and the order facts are discharged on concrete inputs. -/
theorem c6_compareDeviceIds_total_order_witness :
    compareDeviceIds "zz" "b" [("b", ⟨some "pen B", "fam1"⟩)] < 0 ∧
      ("aa" : String) = "aa" ∧
      compareDeviceIds "aa" "cc" [("b", ⟨some "pen B", "fam1"⟩)] ≤ 0 := by
  refine ⟨?_, ?_, ?_⟩
  · exact (c6_compareDeviceIds_total_order [("b", ⟨some "pen B", "fam1"⟩)]
      "zz" "b" "b").2.2.2.1.mpr (Or.inl (by decide))
  · exact (c6_compareDeviceIds_total_order [("b", ⟨some "pen B", "fam1"⟩)]
      "aa" "aa" "aa").1 (by decide) (by decide)
  · exact (c6_compareDeviceIds_total_order [("b", ⟨some "pen B", "fam1"⟩)]
      "aa" "bb" "cc").2.1 (by decide) (by decide)

/-! ### Claim C4: merge engine -/

theorem mapKeys_cons {α : Type} (e : String × α) (rest : JMap α) :
    mapKeys (e :: rest) = e.1 :: mapKeys rest := rfl

theorem mapGet?_append {α : Type} (m1 m2 : JMap α) (q : String) :
    mapGet? (m1 ++ m2) q = (mapGet? m1 q).or (mapGet? m2 q) := by
  induction m1 with
  | nil => simp [mapGet?]
  | cons e rest ih =>
    by_cases h : e.1 = q <;> simp [mapGet?, h, ih]

theorem mapSet_of_get_none {α : Type} {m : JMap α} {k : String} (v : α)
    (h : mapGet? m k = none) : mapSet m k v = m ++ [(k, v)] := by
  induction m with
  | nil => rfl
  | cons e rest ih =>
    rw [mapGet?] at h
    by_cases he : e.1 = k
    · rw [if_pos he] at h
      cases h
    · rw [if_neg he] at h
      simp [mapSet, he, ih h]

theorem mapSet_of_get_some {α : Type} {m : JMap α} {k : String} {v : α}
    (h : mapGet? m k = some v) : mapSet m k v = m := by
  induction m with
  | nil => cases h
  | cons e rest ih =>
    rw [mapGet?] at h
    by_cases he : e.1 = k
    · rw [if_pos he] at h
      cases h
      rw [mapSet, if_pos he, ← he]
    · rw [if_neg he] at h
      simp [mapSet, he, ih h]

theorem mapSetAll_cons {α : Type} (m : JMap α) (e : String × α) (rest : JMap α) :
    mapSetAll m (e :: rest) = mapSetAll (mapSet m e.1 e.2) rest := rfl

theorem mapSetAll_of_disjoint {α : Type} (E : JMap α) (m : JMap α)
    (hdisj : ∀ k ∈ mapKeys E, mapGet? m k = none) (hnd : (mapKeys E).Nodup) :
    mapSetAll m E = m ++ E := by
  induction E generalizing m with
  | nil => simp [mapSetAll]
  | cons e rest ih =>
    rw [mapKeys_cons] at hdisj hnd
    obtain ⟨hk, hnd'⟩ := List.nodup_cons.mp hnd
    have h0 : mapGet? m e.1 = none := hdisj e.1 (by simp)
    rw [mapSetAll_cons, mapSet_of_get_none e.2 h0, ih]
    · simp
    · intro k hkr
      rw [mapGet?_append]
      have hne : e.1 ≠ k := fun h => hk (h ▸ hkr)
      rw [hdisj k (List.mem_cons_of_mem _ hkr)]
      simp [mapGet?, hne]
    · exact hnd'

theorem mapSetAll_id {α : Type} (E : JMap α) (m : JMap α)
    (h : ∀ p ∈ E, mapGet? m p.1 = some p.2) : mapSetAll m E = m := by
  induction E with
  | nil => rfl
  | cons e rest ih =>
    rw [mapSetAll_cons, mapSet_of_get_some (h e (by simp))]
    exact ih fun p hp => h p (by simp [hp])

theorem mapGet?_mapSetAll {α : Type} (E : JMap α) (m : JMap α) (q : String)
    (hE : (mapKeys E).Nodup) :
    mapGet? (mapSetAll m E) q = (mapGet? E q).or (mapGet? m q) := by
  induction E generalizing m with
  | nil => simp [mapSetAll, mapGet?]
  | cons e rest ih =>
    rw [mapKeys_cons] at hE
    obtain ⟨hk, hnd'⟩ := List.nodup_cons.mp hE
    rw [mapSetAll_cons, ih _ hnd']
    by_cases hq : q = e.1
    · have hrest : mapGet? rest q = none := by
        rw [mapGet?_eq_none_iff, hq]
        exact hk
      have hcons : mapGet? (e :: rest) q = some e.2 := by
        rw [mapGet?, if_pos hq.symm]
      rw [hrest, hcons, mapGet?_mapSet, if_pos hq]
      simp
    · have hcons : mapGet? (e :: rest) q = mapGet? rest q := by
        rw [mapGet?, if_neg (fun h => hq h.symm)]
      rw [hcons, mapGet?_mapSet, if_neg hq]

theorem mergeCompatData_eq (L : List Dataset) :
    mergeCompatData L =
      ⟨(L.map Dataset.rows).flatten,
        (L.map Dataset.tabletDefs).foldl mapSetAll [],
        (L.map Dataset.penDefs).foldl mapSetAll [],
        (L.map Dataset.penFamilyDefs).foldl mapSetAll [],
        (L.map Dataset.tabletFamilyDefs).foldl mapSetAll []⟩ := by
  suffices h : ∀ (acc : Dataset),
      L.foldl (fun acc d =>
        Dataset.mk (acc.rows ++ d.rows)
          (mapSetAll acc.tabletDefs d.tabletDefs)
          (mapSetAll acc.penDefs d.penDefs)
          (mapSetAll acc.penFamilyDefs d.penFamilyDefs)
          (mapSetAll acc.tabletFamilyDefs d.tabletFamilyDefs)) acc =
        ⟨acc.rows ++ (L.map Dataset.rows).flatten,
          (L.map Dataset.tabletDefs).foldl mapSetAll acc.tabletDefs,
          (L.map Dataset.penDefs).foldl mapSetAll acc.penDefs,
          (L.map Dataset.penFamilyDefs).foldl mapSetAll acc.penFamilyDefs,
          (L.map Dataset.tabletFamilyDefs).foldl mapSetAll acc.tabletFamilyDefs⟩ by
    rw [mergeCompatData, h ⟨[], [], [], [], []⟩]
    simp
  induction L with
  | nil => intro acc; simp
  | cons d L ih =>
    intro acc
    rw [List.foldl_cons, ih]
    simp

theorem foldl_or_of_maps {α : Type} (ms : List (JMap α)) (m0 : JMap α) (q : String)
    (h : ∀ m ∈ ms, (mapKeys m).Nodup) :
    mapGet? (ms.foldl mapSetAll m0) q =
      ms.foldl (fun r t => (mapGet? t q).or r) (mapGet? m0 q) := by
  induction ms generalizing m0 with
  | nil => rfl
  | cons t ms ih =>
    rw [List.foldl_cons, List.foldl_cons,
      ih _ (fun m hm => h m (by simp [hm])),
      mapGet?_mapSetAll _ _ _ (h t (by simp))]

/-- Keys of all four definition tables of a dataset are duplicate-free, as is
the case for every dataset produced by a JS `Map`. -/
def datasetKeysNodup (A : Dataset) : Prop :=
  (mapKeys A.tabletDefs).Nodup ∧ (mapKeys A.penDefs).Nodup ∧
    (mapKeys A.penFamilyDefs).Nodup ∧ (mapKeys A.tabletFamilyDefs).Nodup

instance (A : Dataset) : Decidable (datasetKeysNodup A) :=
  inferInstanceAs (Decidable (_ ∧ _ ∧ _ ∧ _))

theorem mapSetAll_self {α : Type} (E : JMap α) (h : (mapKeys E).Nodup) :
    mapSetAll E E = E :=
  mapSetAll_id E E fun p hp => mapGet?_of_nodup E p.1 p.2 h hp

theorem mapSetAll_nil_left {α : Type} (E : JMap α) (h : (mapKeys E).Nodup) :
    mapSetAll [] E = E := by
  rw [mapSetAll_of_disjoint E [] (fun k _ => rfl) h]
  rfl

/-- C4: merging a list of datasets concatenates their row sequences in input
order and folds every input's definition entries with `Map.set`, so on an id
collision the later dataset's definition wins; merging a dataset `A` (whose
tables, coming from JS `Map`s, have duplicate-free keys) with itself yields
`A`'s definition tables unchanged and `A`'s rows concatenated twice. -/
theorem c4_merge_spec :
    ∀ (L : List Dataset) (A : Dataset) (k : String),
      ((mergeCompatData L).rows = (L.map Dataset.rows).flatten) ∧
      ((∀ d ∈ L, (mapKeys d.tabletDefs).Nodup) →
        mapGet? (mergeCompatData L).tabletDefs k =
          (L.map Dataset.tabletDefs).foldl (fun r t => (mapGet? t k).or r) none) ∧
      ((∀ d ∈ L, (mapKeys d.penDefs).Nodup) →
        mapGet? (mergeCompatData L).penDefs k =
          (L.map Dataset.penDefs).foldl (fun r t => (mapGet? t k).or r) none) ∧
      ((∀ d ∈ L, (mapKeys d.penFamilyDefs).Nodup) →
        mapGet? (mergeCompatData L).penFamilyDefs k =
          (L.map Dataset.penFamilyDefs).foldl (fun r t => (mapGet? t k).or r) none) ∧
      ((∀ d ∈ L, (mapKeys d.tabletFamilyDefs).Nodup) →
        mapGet? (mergeCompatData L).tabletFamilyDefs k =
          (L.map Dataset.tabletFamilyDefs).foldl (fun r t => (mapGet? t k).or r) none) ∧
      (datasetKeysNodup A →
        mergeCompatData [A, A] =
          ⟨A.rows ++ A.rows, A.tabletDefs, A.penDefs, A.penFamilyDefs,
            A.tabletFamilyDefs⟩) := by
  intro L A k
  refine ⟨by rw [mergeCompatData_eq], ?_, ?_, ?_, ?_, ?_⟩
  · intro h
    rw [mergeCompatData_eq]
    exact foldl_or_of_maps _ [] k (by simpa using h)
  · intro h
    rw [mergeCompatData_eq]
    exact foldl_or_of_maps _ [] k (by simpa using h)
  · intro h
    rw [mergeCompatData_eq]
    exact foldl_or_of_maps _ [] k (by simpa using h)
  · intro h
    rw [mergeCompatData_eq]
    exact foldl_or_of_maps _ [] k (by simpa using h)
  · rintro ⟨h1, h2, h3, h4⟩
    rw [mergeCompatData_eq]
    simp only [List.map_cons, List.map_nil, List.flatten, List.foldl_cons,
      List.foldl_nil, List.append_nil]
    rw [mapSetAll_nil_left _ h1, mapSetAll_nil_left _ h2, mapSetAll_nil_left _ h3,
      mapSetAll_nil_left _ h4, mapSetAll_self _ h1, mapSetAll_self _ h2,
      mapSetAll_self _ h3, mapSetAll_self _ h4]

/-- C4 witness: a two-dataset merge where the second dataset's definition of
`"x"` wins, and a concrete self-merge. -/
theorem c4_merge_spec_witness :
    mapGet?
        (mergeCompatData
          [⟨[⟨["T"], ["P"]⟩], [("x", ⟨some "first", "f1"⟩)], [], [], []⟩,
            ⟨[], [("x", ⟨some "second", "f2"⟩)], [], [], []⟩]).tabletDefs "x" =
      some ⟨some "second", "f2"⟩ ∧
    mergeCompatData
        [⟨[⟨["T"], ["P"]⟩], [("x", ⟨some "first", "f1"⟩)], [], [], []⟩,
          ⟨[⟨["T"], ["P"]⟩], [("x", ⟨some "first", "f1"⟩)], [], [], []⟩] =
      ⟨[⟨["T"], ["P"]⟩, ⟨["T"], ["P"]⟩], [("x", ⟨some "first", "f1"⟩)], [], [], []⟩ := by
  constructor
  · rw [(c4_merge_spec
      [⟨[⟨["T"], ["P"]⟩], [("x", ⟨some "first", "f1"⟩)], [], [], []⟩,
        ⟨[], [("x", ⟨some "second", "f2"⟩)], [], [], []⟩]
      ⟨[], [], [], [], []⟩ "x").2.1 (by decide)]
    decide
  · exact (c4_merge_spec []
      ⟨[⟨["T"], ["P"]⟩], [("x", ⟨some "first", "f1"⟩)], [], [], []⟩ "x").2.2.2.2.2
      (by decide)

/-! ### Claim C9: only the first child of each tag is consulted -/

theorem querySel_dup (c1 c2 : List XElem) (e : XElem) (t : String)
    (h : (querySel ⟨c1⟩ e.tag).isSome = true) :
    querySel ⟨c1 ++ e :: c2⟩ t = querySel ⟨c1 ++ c2⟩ t := by
  rw [querySel, querySel, List.find?_append, List.find?_append]
  rcases hf : List.find? (fun el => el.tag == t) c1 with _ | el
  · have het : ¬(e.tag == t) = true := by
      intro he
      rw [beq_iff_eq] at he
      rw [querySel, he, hf] at h
      cases h
    rw [hf]
    simp only [Option.none_or]
    rw [List.find?_cons]
    simp [bool_eq_false het]
  · simp [hf]

theorem c9_first_sibling_only :
    ∀ (c1 c2 : List XElem) (e : XElem) (famT famP : JMap (List String))
      (tDefs pDefs : JMap DeviceDef) (pre post : List XRow) (tag : String),
      (querySel ⟨c1⟩ e.tag).isSome = true →
      (querySel ⟨c1 ++ e :: c2⟩ tag = querySel ⟨c1 ++ c2⟩ tag) ∧
      processRow famT famP ⟨c1 ++ e :: c2⟩ = processRow famT famP ⟨c1 ++ c2⟩ ∧
      getRowsGrouped (pre ++ ⟨c1 ++ e :: c2⟩ :: post) tDefs pDefs =
        getRowsGrouped (pre ++ ⟨c1 ++ c2⟩ :: post) tDefs pDefs ∧
      getRowsUngrouped (pre ++ ⟨c1 ++ e :: c2⟩ :: post) tDefs pDefs =
        getRowsUngrouped (pre ++ ⟨c1 ++ c2⟩ :: post) tDefs pDefs ∧
      getRowsByPen (pre ++ ⟨c1 ++ e :: c2⟩ :: post) tDefs pDefs =
        getRowsByPen (pre ++ ⟨c1 ++ c2⟩ :: post) tDefs pDefs ∧
      getRowsByTablet (pre ++ ⟨c1 ++ e :: c2⟩ :: post) tDefs pDefs =
        getRowsByTablet (pre ++ ⟨c1 ++ c2⟩ :: post) tDefs pDefs ∧
      totalUniqueIds tag (pre ++ ⟨c1 ++ e :: c2⟩ :: post) =
        totalUniqueIds tag (pre ++ ⟨c1 ++ c2⟩ :: post) := by
  intro c1 c2 e famT famP tDefs pDefs pre post tag h
  have hq : ∀ t, querySel ⟨c1 ++ e :: c2⟩ t = querySel ⟨c1 ++ c2⟩ t :=
    fun t => querySel_dup c1 c2 e t h
  have hrt : rawTablets ⟨c1 ++ e :: c2⟩ = rawTablets ⟨c1 ++ c2⟩ := by
    rw [rawTablets, rawTablets, hq "tablet"]
  have hrp : rawPens ⟨c1 ++ e :: c2⟩ = rawPens ⟨c1 ++ c2⟩ := by
    rw [rawPens, rawPens, hq "pen"]
  have hmap : ∀ {β : Type} (f : XRow → β), f ⟨c1 ++ e :: c2⟩ = f ⟨c1 ++ c2⟩ →
      (pre ++ ⟨c1 ++ e :: c2⟩ :: post).map f = (pre ++ ⟨c1 ++ c2⟩ :: post).map f := by
    intro β f hf
    rw [List.map_append, List.map_append, List.map_cons, List.map_cons, hf]
  refine ⟨hq tag, ?_, ?_, ?_, ?_, ?_, ?_⟩
  · simp only [processRow, hq "tablet", hq "tabletfamily", hq "pen", hq "penfamily"]
  · simp only [getRowsGrouped]
    exact hmap _ (by simp only [hrt, hrp])
  · simp only [getRowsUngrouped, List.flatMap_def]
    rw [hmap _ (by simp only [hrt, hrp])]
  · simp only [getRowsByPen]
    rw [hmap (fun r => (rawPens r, rawTablets r)) (by simp only [hrt, hrp])]
  · simp only [getRowsByTablet]
    rw [hmap (fun r => (rawTablets r, rawPens r)) (by simp only [hrt, hrp])]
  · simp only [totalUniqueIds, List.foldl_append, List.foldl_cons, hq tag]

/-- C9 witness: a second `<tablet>` sibling with different tokens does not
change the parsed row, the grouped projection, or the statistics sets. -/
theorem c9_first_sibling_only_witness :
    processRow [] [] ⟨[⟨"tablet", "T1"⟩, ⟨"tablet", "T2"⟩]⟩ =
      processRow [] [] ⟨[⟨"tablet", "T1"⟩]⟩ ∧
    totalUniqueIds "tablet" [⟨[⟨"tablet", "T1"⟩, ⟨"tablet", "T2"⟩]⟩] =
      totalUniqueIds "tablet" [⟨[⟨"tablet", "T1"⟩]⟩] := by
  constructor
  · exact (c9_first_sibling_only [⟨"tablet", "T1"⟩] [] ⟨"tablet", "T2"⟩
      [] [] [] [] [] [] "tablet" (by decide)).2.1
  · exact (c9_first_sibling_only [⟨"tablet", "T1"⟩] [] ⟨"tablet", "T2"⟩
      [] [] [] [] [] [] "tablet" (by decide)).2.2.2.2.2.2

/-! ### Claims C3 and C10: family expansion and the reverse index -/

theorem mapGet?_indexAdd (m : JMap (List String)) (k : String) (vs : List String)
    (q : String) :
    mapGet? (indexAdd m k vs) q =
      if q = k then some (List.foldl setAdd ((mapGet? m k).getD []) vs)
      else mapGet? m q := by
  induction m with
  | nil =>
    by_cases h : q = k
    · subst h; simp [indexAdd, mapGet?]
    · simp [indexAdd, mapGet?, h, Ne.symm h]
  | cons e rest ih =>
    by_cases hek : e.1 = k
    · rw [indexAdd, if_pos hek]
      by_cases hq : q = k
      · subst hq
        rw [if_pos rfl, mapGet?, if_pos hek, mapGet?, if_pos hek]
        rfl
      · have he : e.1 ≠ q := fun hh => hq (hh.symm.trans hek)
        rw [if_neg hq, mapGet?, if_neg he, mapGet?, if_neg he]
    · rw [indexAdd, if_neg hek]
      by_cases heq : e.1 = q
      · have hqk : ¬q = k := fun hh => hek (heq.trans hh)
        rw [if_neg hqk, mapGet?, if_pos heq, mapGet?, if_pos heq]
      · rw [mapGet?, if_neg heq, ih, mapGet?, if_neg hek, mapGet?, if_neg heq]

theorem mapHas_indexAdd (m : JMap (List String)) (k : String) (vs : List String)
    (q : String) :
    mapHas (indexAdd m k vs) q = true ↔ q = k ∨ mapHas m q = true := by
  rw [mapHas, mapGet?_indexAdd]
  by_cases h : q = k <;> simp [h, mapHas]

theorem expand_fold_fst (idx : JMap (List String)) (fams : List String)
    (s0 d0 : List String) (x : String) :
    x ∈ (fams.foldl (expandStep idx) (s0, d0)).1 ↔
      x ∈ s0 ∨ ∃ f ∈ fams, ∃ ms, mapGet? idx f = some ms ∧ x ∈ ms := by
  induction fams generalizing s0 d0 with
  | nil => simp
  | cons f fams ih =>
    rw [List.foldl_cons]
    rcases hm : mapGet? idx f with _ | ms
    · rw [show expandStep idx (s0, d0) f = (s0, d0 ++ [f]) by rw [expandStep, hm]]
      rw [ih]
      constructor
      · rintro (hs | ⟨f', hf', ms', hget, hx⟩)
        · exact Or.inl hs
        · exact Or.inr ⟨f', List.mem_cons_of_mem _ hf', ms', hget, hx⟩
      · rintro (hs | ⟨f', hf', ms', hget, hx⟩)
        · exact Or.inl hs
        · rcases List.mem_cons.mp hf' with rfl | hf'
          · rw [hm] at hget
            cases hget
          · exact Or.inr ⟨f', hf', ms', hget, hx⟩
    · rw [show expandStep idx (s0, d0) f = (List.foldl setAdd s0 ms, d0) by
        rw [expandStep, hm]]
      rw [ih]
      constructor
      · rintro (hs | ⟨f', hf', ms', hget, hx⟩)
        · rcases (mem_foldl_setAdd ms s0 x).mp hs with hs | hs
          · exact Or.inl hs
          · exact Or.inr ⟨f, List.mem_cons_self f fams, ms, hm, hs⟩
        · exact Or.inr ⟨f', List.mem_cons_of_mem _ hf', ms', hget, hx⟩
      · rintro (hs | ⟨f', hf', ms', hget, hx⟩)
        · exact Or.inl ((mem_foldl_setAdd ms s0 x).mpr (Or.inl hs))
        · rcases List.mem_cons.mp hf' with rfl | hf'
          · rw [hm] at hget
            cases hget
            exact Or.inl ((mem_foldl_setAdd ms s0 x).mpr (Or.inr hx))
          · exact Or.inr ⟨f', hf', ms', hget, hx⟩

theorem expand_fold_snd (idx : JMap (List String)) (fams : List String)
    (s0 d0 : List String) :
    (fams.foldl (expandStep idx) (s0, d0)).2 =
      d0 ++ fams.filter (fun f => !(mapHas idx f)) := by
  induction fams generalizing s0 d0 with
  | nil => simp
  | cons f fams ih =>
    rw [List.foldl_cons, List.filter_cons]
    rcases hm : mapGet? idx f with _ | ms
    · rw [show expandStep idx (s0, d0) f = (s0, d0 ++ [f]) by rw [expandStep, hm]]
      rw [ih]
      have : (!(mapHas idx f)) = true := by simp [mapHas, hm]
      rw [if_pos this]
      simp
    · rw [show expandStep idx (s0, d0) f = (List.foldl setAdd s0 ms, d0) by
        rw [expandStep, hm]]
      rw [ih]
      have : ¬(!(mapHas idx f)) = true := by simp [mapHas, hm]
      rw [if_neg this]

theorem expand_fold_nodup (idx : JMap (List String)) (fams : List String)
    (s0 d0 : List String) (h : s0.Nodup) :
    (fams.foldl (expandStep idx) (s0, d0)).1.Nodup := by
  induction fams generalizing s0 d0 with
  | nil => exact h
  | cons f fams ih =>
    rw [List.foldl_cons]
    rcases hm : mapGet? idx f with _ | ms
    · rw [show expandStep idx (s0, d0) f = (s0, d0 ++ [f]) by rw [expandStep, hm]]
      exact ih _ _ h
    · rw [show expandStep idx (s0, d0) f = (List.foldl setAdd s0 ms, d0) by
        rw [expandStep, hm]]
      exact ih _ _ (nodup_foldl_setAdd ms s0 h)

theorem expandFams_mem (idx : JMap (List String)) (direct fams : List String)
    (x : String) :
    x ∈ (expandFams idx direct fams).1 ↔
      x ∈ direct ∨ ∃ f ∈ fams, ∃ ms, mapGet? idx f = some ms ∧ x ∈ ms := by
  rw [expandFams, expand_fold_fst, mem_foldl_setAdd]
  simp

theorem expandFams_nodup (idx : JMap (List String)) (direct fams : List String) :
    (expandFams idx direct fams).1.Nodup :=
  expand_fold_nodup idx fams _ [] (nodup_foldl_setAdd direct [] List.nodup_nil)

theorem expandFams_diag (idx : JMap (List String)) (direct fams : List String) :
    (expandFams idx direct fams).2 = fams.filter (fun f => !(mapHas idx f)) := by
  rw [expandFams, expand_fold_snd]
  rfl

theorem processRow_eq (famT famP : JMap (List String)) (row : XRow) :
    processRow famT famP row =
      (⟨(expandFams famT (extractItems (querySel row "tablet"))
            (extractItems (querySel row "tabletfamily"))).1,
          (expandFams famP (extractItems (querySel row "pen"))
            (extractItems (querySel row "penfamily"))).1⟩,
        (expandFams famT (extractItems (querySel row "tablet"))
            (extractItems (querySel row "tabletfamily"))).2 ++
          (expandFams famP (extractItems (querySel row "pen"))
            (extractItems (querySel row "penfamily"))).2) := rfl

/-- C3: for every compatrow, the effective tablet set is exactly the direct
tablet tokens together with the members of every referenced tablet family
present in the reverse index (symmetrically for pens); the result is
duplicate-free and determined by the underlying sets of direct ids and family
references (so order and duplicates in the input are irrelevant); unresolved
references contribute nothing beyond a diagnostic, which never fails the
(total) parse; and the concrete round trip F1 = {T1,T2} plus direct T3 gives
effectively {T1,T2,T3}. -/
theorem c3_family_expansion :
    ∀ (famT famP : JMap (List String)) (row : XRow),
      (∀ x, x ∈ (processRow famT famP row).1.tablets ↔
          x ∈ extractItems (querySel row "tablet") ∨
          ∃ f ∈ extractItems (querySel row "tabletfamily"),
            ∃ ms, mapGet? famT f = some ms ∧ x ∈ ms) ∧
      (processRow famT famP row).1.tablets.Nodup ∧
      (∀ x, x ∈ (processRow famT famP row).1.pens ↔
          x ∈ extractItems (querySel row "pen") ∨
          ∃ f ∈ extractItems (querySel row "penfamily"),
            ∃ ms, mapGet? famP f = some ms ∧ x ∈ ms) ∧
      (processRow famT famP row).1.pens.Nodup ∧
      ((processRow famT famP row).2 =
        (extractItems (querySel row "tabletfamily")).filter
            (fun f => !(mapHas famT f)) ++
          (extractItems (querySel row "penfamily")).filter
            (fun f => !(mapHas famP f))) ∧
      (∀ (idx : JMap (List String)) (direct direct' fams fams' : List String),
        direct.toFinset = direct'.toFinset → fams.toFinset = fams'.toFinset →
        (expandFams idx direct fams).1.toFinset =
          (expandFams idx direct' fams').1.toFinset) ∧
      ((expandFams [("F1", ["T1", "T2"])] ["T3"] ["F1"]).1.toFinset =
        (["T1", "T2", "T3"] : List String).toFinset) := by
  intro famT famP row
  refine ⟨?_, ?_, ?_, ?_, ?_, ?_, by decide⟩
  · intro x
    rw [processRow_eq]
    exact expandFams_mem _ _ _ x
  · rw [processRow_eq]
    exact expandFams_nodup _ _ _
  · intro x
    rw [processRow_eq]
    exact expandFams_mem _ _ _ x
  · rw [processRow_eq]
    exact expandFams_nodup _ _ _
  · rw [processRow_eq]
    rw [expandFams_diag, expandFams_diag]
  · intro idx direct direct' fams fams' hd hf
    ext x
    simp only [List.mem_toFinset, expandFams_mem]
    have hd' : ∀ y, y ∈ direct ↔ y ∈ direct' := by
      intro y
      rw [← List.mem_toFinset, hd, List.mem_toFinset]
    have hf' : ∀ y, y ∈ fams ↔ y ∈ fams' := by
      intro y
      rw [← List.mem_toFinset, hf, List.mem_toFinset]
    constructor
    · rintro (hx | ⟨f, hfm, ms, hget, hx⟩)
      · exact Or.inl ((hd' x).mp hx)
      · exact Or.inr ⟨f, (hf' f).mp hfm, ms, hget, hx⟩
    · rintro (hx | ⟨f, hfm, ms, hget, hx⟩)
      · exact Or.inl ((hd' x).mpr hx)
      · exact Or.inr ⟨f, (hf' f).mpr hfm, ms, hget, hx⟩

/-- C3 witness: order and duplicates in the direct list and the family
reference list do not change the effective set. -/
theorem c3_family_expansion_witness :
    (expandFams [("F1", ["T1", "T2"])] ["T3", "T3"] ["F1", "F1"]).1.toFinset =
      (expandFams [("F1", ["T1", "T2"])] ["T3"] ["F1"]).1.toFinset :=
  (c3_family_expansion [] [] ⟨[]⟩).2.2.2.2.2.1 [("F1", ["T1", "T2"])]
    ["T3", "T3"] ["T3"] ["F1", "F1"] ["F1"] (by decide) (by decide)

theorem buildIdx_has_general (defs : List DefElem)
    (acc : JMap DeviceDef × JMap (List String)) (f : String) (hf : f ≠ "") :
    mapHas (defs.foldl defStep acc).2 f = true ↔
      mapHas acc.2 f = true ∨ ∃ d ∈ defs, d.familyid.getD "" = f := by
  induction defs generalizing acc with
  | nil => simp
  | cons d defs ih =>
    rw [List.foldl_cons, ih]
    by_cases hfam : d.familyid.getD "" = ""
    · have hsnd : (defStep acc d).2 = acc.2 := by
        rw [defStep]
        simp [hfam]
      rw [hsnd]
      constructor
      · rintro (hh | ⟨d', hd', he⟩)
        · exact Or.inl hh
        · exact Or.inr ⟨d', List.mem_cons_of_mem _ hd', he⟩
      · rintro (hh | ⟨d', hd', he⟩)
        · exact Or.inl hh
        · rcases List.mem_cons.mp hd' with rfl | hd'
          · exact absurd (hfam.symm.trans he).symm hf
          · exact Or.inr ⟨d', hd', he⟩
    · have hsnd : (defStep acc d).2 = indexAdd acc.2 (d.familyid.getD "") [d.id] := by
        rw [defStep]
        simp [hfam]
      rw [hsnd]
      constructor
      · rintro (hh | ⟨d', hd', he⟩)
        · rcases (mapHas_indexAdd acc.2 _ _ f).mp hh with he | hh
          · exact Or.inr ⟨d, List.mem_cons_self d defs, he.symm⟩
          · exact Or.inl hh
        · exact Or.inr ⟨d', List.mem_cons_of_mem _ hd', he⟩
      · rintro (hh | ⟨d', hd', he⟩)
        · exact Or.inl ((mapHas_indexAdd acc.2 _ _ f).mpr (Or.inr hh))
        · rcases List.mem_cons.mp hd' with rfl | hd'
          · exact Or.inl ((mapHas_indexAdd acc.2 _ _ f).mpr (Or.inl he.symm))
          · exact Or.inr ⟨d', hd', he⟩

/-- C10: a family id referenced by a row is known to the expander iff some
device definition declares it as its `familyid`; a family with a label entry
in the family-definition table but no member devices is still unknown (the
reverse index is built only from device-definition `familyid` attributes,
never from the label tables), so expanding a reference to it contributes no
members and emits the unknown-family diagnostic. -/
theorem c10_family_index_from_device_defs :
    ∀ (defs : List DefElem) (f : String),
      f ≠ "" →
      (mapHas (buildDefsAndIndex defs).2 f = true ↔
        ∃ d ∈ defs, d.familyid.getD "" = f) ∧
      ((¬∃ d ∈ defs, d.familyid.getD "" = f) →
        ∀ (famDefs : List FamDefElem) (direct : List String),
          (mapGet? (buildFamDefs famDefs) f).isSome = true →
          expandFams (buildDefsAndIndex defs).2 direct [f] =
            (List.foldl setAdd [] direct, [f])) := by
  intro defs f hf
  have hmain := buildIdx_has_general defs ([], []) f hf
  constructor
  · rw [buildDefsAndIndex, hmain]
    simp [mapHas, mapGet?]
  · intro hno famDefs direct _
    have hnone : mapGet? (buildDefsAndIndex defs).2 f = none := by
      rcases hv : mapGet? (buildDefsAndIndex defs).2 f with _ | v
      · rfl
      · exfalso
        apply hno
        have : mapHas (buildDefsAndIndex defs).2 f = true := by
          rw [mapHas, hv]
          rfl
        rw [buildDefsAndIndex, hmain] at this
        rcases this with hh | hh
        · rw [mapHas, mapGet?] at hh
          cases hh
        · exact hh
    rw [expandFams, List.foldl_cons, List.foldl_nil, expandStep, hnone]
    rfl

/-- C10 witness: `"G"` is indexed because tablet definition `T1` declares it;
`"F"` has only a label entry and no member devices, so a row referencing `"F"`
gains no members and produces the diagnostic. -/
theorem c10_family_index_from_device_defs_witness :
    mapHas (buildDefsAndIndex [⟨"T1", some "Tab One", some "G"⟩]).2 "G" = true ∧
      expandFams (buildDefsAndIndex [⟨"T1", some "Tab One", some "G"⟩]).2
          ["T3"] ["F"] =
        (List.foldl setAdd [] ["T3"], ["F"]) := by
  constructor
  · exact (c10_family_index_from_device_defs [⟨"T1", some "Tab One", some "G"⟩]
      "G" (by decide)).1.mpr (by decide)
  · exact (c10_family_index_from_device_defs [⟨"T1", some "Tab One", some "G"⟩]
      "F" (by decide)).2 (by decide) [⟨"F", some "Family F"⟩] ["T3"] (by decide)

/-! ### Claim C2: search filter semantics -/

theorem jsTrim_eq_nil {q : List Char} (h : ∀ c ∈ q, c.isWhitespace = true) :
    jsTrim q = [] := by
  rw [jsTrim, List.dropWhile_eq_nil_iff.mpr h]
  rfl

theorem parseSearchTokens_ws {q : List Char} (h : ∀ c ∈ q, c.isWhitespace = true) :
    parseSearchTokens q = [] := by
  rw [parseSearchTokens, jsTrim_eq_nil h]
  rfl

/-- C2: the filter of `renderCompatTable` accepts every display row when the
query is empty or whitespace-only, and otherwise accepts a row iff every
query token (AND across tokens) is matched by at least one item among the
row's tablets and pens, either on the raw id or on the resolved display name
(OR within a token); a definition whose `name` attribute is null or `""` is
falsy in JS and contributes no name match. -/
theorem c2_search_filter :
    ∀ (tDefs pDefs : JMap DeviceDef) (rows : List DisplayRow) (query : List Char),
      ((∀ c ∈ query, c.isWhitespace = true) →
        filterRows tDefs pDefs query rows = rows) ∧
      (∀ row, row ∈ filterRows tDefs pDefs query rows ↔
        row ∈ rows ∧
          ∀ tok ∈ parseSearchTokens query,
            ∃ item ∈ row.tablets ++ row.pens,
              regexTest (createGlobRegex tok) item = true ∨
                (itemDisplayName tDefs pDefs item ≠ "" ∧
                  regexTest (createGlobRegex tok) (itemDisplayName tDefs pDefs item) =
                    true)) := by
  intro tDefs pDefs rows query
  have hp : ∀ row : DisplayRow,
      (((parseSearchTokens query).map createGlobRegex).isEmpty ||
          rowMatchesSearch tDefs pDefs
            ((parseSearchTokens query).map createGlobRegex) row) = true ↔
        ∀ tok ∈ parseSearchTokens query,
          ∃ item ∈ row.tablets ++ row.pens,
            regexTest (createGlobRegex tok) item = true ∨
              (itemDisplayName tDefs pDefs item ≠ "" ∧
                regexTest (createGlobRegex tok) (itemDisplayName tDefs pDefs item) =
                  true) := by
    intro row
    rcases htoks : parseSearchTokens query with _ | ⟨t, ts⟩
    · simp
    · rw [show ((t :: ts).map createGlobRegex).isEmpty = false from rfl, Bool.false_or]
      simp only [rowMatchesSearch, List.all_eq_true, List.forall_mem_map]
      refine forall₂_congr ?_
      intro tok _
      simp only [List.any_eq_true, Bool.or_eq_true, Bool.and_eq_true,
        Bool.not_eq_true', beq_eq_false_iff_ne, ne_eq]
  constructor
  · intro h
    have ht := parseSearchTokens_ws h
    simp [filterRows, ht]
  · intro row
    rw [filterRows, List.mem_filter, hp row]

/-- C2 witness: a whitespace-only query accepts every row, and a matching
query keeps a row while a non-matching one removes it. -/
theorem c2_search_filter_witness :
    filterRows [] [] [' ', ' '] [⟨["T1"], ["P1"]⟩] = [⟨["T1"], ["P1"]⟩] ∧
      (DisplayRow.mk ["T1"] ["P1"] ∈ filterRows [] [] "t*".data [⟨["T1"], ["P1"]⟩] ∧
        DisplayRow.mk ["T1"] ["P1"] ∉ filterRows [] [] "zz".data [⟨["T1"], ["P1"]⟩]) := by
  refine ⟨(c2_search_filter [] [] [⟨["T1"], ["P1"]⟩] [' ', ' ']).1 (by decide), ?_, ?_⟩
  · rw [(c2_search_filter [] [] [⟨["T1"], ["P1"]⟩] "t*".data).2 ⟨["T1"], ["P1"]⟩]
    refine ⟨by decide, ?_⟩
    intro tok htok
    refine ⟨"T1", by decide, Or.inl ?_⟩
    have ht : parseSearchTokens "t*".data = ["t*"] := by decide
    rw [ht] at htok
    rcases List.mem_singleton.mp htok with rfl
    decide
  · rw [(c2_search_filter [] [] [⟨["T1"], ["P1"]⟩] "zz".data).2 ⟨["T1"], ["P1"]⟩]
    rintro ⟨-, h⟩
    have ht : parseSearchTokens "zz".data = ["zz"] := by decide
    rcases h "zz" (by rw [ht]; exact List.mem_singleton_self "zz") with
      ⟨item, hitem, hmatch⟩
    rcases List.mem_append.mp hitem with hi | hi <;>
      rcases List.mem_singleton.mp hi with rfl <;>
      rcases hmatch with hm | ⟨hn, -⟩
    · exact absurd hm (by decide)
    · exact hn (by decide)
    · exact absurd hm (by decide)
    · exact hn (by decide)

/-! ### Claims C7 and C8: the aggregating projections -/

theorem rowFold_get (ks vs : List String) (m : JMap (List String)) (q : String) :
    mapGet? (ks.foldl (fun m k => indexAdd m k vs) m) q =
      if q ∈ ks then some (List.foldl setAdd ((mapGet? m q).getD []) vs)
      else mapGet? m q := by
  induction ks generalizing m with
  | nil => simp
  | cons k ks ih =>
    rw [List.foldl_cons, ih]
    by_cases hq : q ∈ ks
    · rw [if_pos hq, if_pos (List.mem_cons_of_mem _ hq), mapGet?_indexAdd]
      by_cases hqk : q = k
      · rw [if_pos hqk, hqk, Option.getD_some]
        congr 1
        exact foldl_setAdd_of_subset vs _ fun v hv =>
          (mem_foldl_setAdd vs _ v).mpr (Or.inr hv)
      · rw [if_neg hqk]
    · rw [if_neg hq]
      by_cases hqk : q = k
      · rw [if_pos (by rw [hqk]; exact List.mem_cons_self k ks),
          mapGet?_indexAdd, if_pos hqk, hqk]
      · rw [if_neg (fun hc => (List.mem_cons.mp hc).elim hqk hq),
          mapGet?_indexAdd, if_neg hqk]

theorem rowFold_has (ks vs : List String) (m : JMap (List String)) (q : String) :
    mapHas (ks.foldl (fun m k => indexAdd m k vs) m) q = true ↔
      q ∈ ks ∨ mapHas m q = true := by
  rw [mapHas, rowFold_get]
  by_cases h : q ∈ ks
  · simp [h]
  · simp [h, mapHas]

theorem mapKeys_indexAdd (m : JMap (List String)) (k : String) (vs : List String) :
    mapKeys (indexAdd m k vs) =
      if mapHas m k = true then mapKeys m else mapKeys m ++ [k] := by
  induction m with
  | nil => simp [indexAdd, mapKeys, mapHas, mapGet?]
  | cons e rest ih =>
    by_cases he : e.1 = k
    · rw [indexAdd, if_pos he]
      have hh : mapHas (e :: rest) k = true := by
        rw [mapHas, mapGet?, if_pos he]
        rfl
      rw [if_pos hh, mapKeys_cons, mapKeys_cons, he]
    · rw [indexAdd, if_neg he]
      have hh : mapHas (e :: rest) k = mapHas rest k := by
        rw [mapHas, mapHas, mapGet?, if_neg he]
      rw [mapKeys_cons, hh, ih]
      by_cases hr : mapHas rest k = true
      · rw [if_pos hr, if_pos hr, mapKeys_cons]
      · rw [if_neg hr, if_neg hr, mapKeys_cons]
        rfl

theorem nodup_keys_indexAdd (m : JMap (List String)) (k : String) (vs : List String)
    (h : (mapKeys m).Nodup) : (mapKeys (indexAdd m k vs)).Nodup := by
  rw [mapKeys_indexAdd]
  by_cases hh : mapHas m k = true
  · rw [if_pos hh]
    exact h
  · rw [if_neg hh]
    have hk : k ∉ mapKeys m := fun hc => hh ((mapHas_iff_mem_keys m k).mpr hc)
    simp [List.nodup_append, h, hk]

theorem rowFold_keys_nodup (ks vs : List String) (m : JMap (List String))
    (h : (mapKeys m).Nodup) :
    (mapKeys (ks.foldl (fun m k => indexAdd m k vs) m)).Nodup := by
  induction ks generalizing m with
  | nil => exact h
  | cons k ks ih => exact ih _ (nodup_keys_indexAdd m k vs h)

theorem rowFold_values_nodup (ks vs : List String) (m : JMap (List String))
    (h : ∀ q, ((mapGet? m q).getD []).Nodup) :
    ∀ q, ((mapGet? (ks.foldl (fun m k => indexAdd m k vs) m) q).getD []).Nodup := by
  intro q
  rw [rowFold_get]
  by_cases hq : q ∈ ks
  · rw [if_pos hq, Option.getD_some]
    exact nodup_foldl_setAdd vs _ (h q)
  · rw [if_neg hq]
    exact h q

theorem buildFold_get_mem (pairs : List (List String × List String))
    (m : JMap (List String)) (q x : String) :
    x ∈ (mapGet? (pairs.foldl
        (fun m pr => pr.1.foldl (fun m k => indexAdd m k pr.2) m) m) q).getD [] ↔
      x ∈ (mapGet? m q).getD [] ∨ ∃ pr ∈ pairs, q ∈ pr.1 ∧ x ∈ pr.2 := by
  induction pairs generalizing m with
  | nil => simp
  | cons pr pairs ih =>
    rw [List.foldl_cons, ih, rowFold_get]
    by_cases hq : q ∈ pr.1
    · rw [if_pos hq, Option.getD_some, mem_foldl_setAdd]
      constructor
      · rintro ((hb | hv) | ⟨pr', hpr', hq', hx⟩)
        · exact Or.inl hb
        · exact Or.inr ⟨pr, List.mem_cons_self pr pairs, hq, hv⟩
        · exact Or.inr ⟨pr', List.mem_cons_of_mem _ hpr', hq', hx⟩
      · rintro (hb | ⟨pr', hpr', hq', hx⟩)
        · exact Or.inl (Or.inl hb)
        · rcases List.mem_cons.mp hpr' with rfl | hpr'
          · exact Or.inl (Or.inr hx)
          · exact Or.inr ⟨pr', hpr', hq', hx⟩
    · rw [if_neg hq]
      constructor
      · rintro (hb | ⟨pr', hpr', hq', hx⟩)
        · exact Or.inl hb
        · exact Or.inr ⟨pr', List.mem_cons_of_mem _ hpr', hq', hx⟩
      · rintro (hb | ⟨pr', hpr', hq', hx⟩)
        · exact Or.inl hb
        · rcases List.mem_cons.mp hpr' with rfl | hpr'
          · exact absurd hq' hq
          · exact Or.inr ⟨pr', hpr', hq', hx⟩

theorem buildFold_has (pairs : List (List String × List String))
    (m : JMap (List String)) (q : String) :
    mapHas (pairs.foldl
        (fun m pr => pr.1.foldl (fun m k => indexAdd m k pr.2) m) m) q = true ↔
      mapHas m q = true ∨ ∃ pr ∈ pairs, q ∈ pr.1 := by
  induction pairs generalizing m with
  | nil => simp
  | cons pr pairs ih =>
    rw [List.foldl_cons, ih, rowFold_has]
    constructor
    · rintro (hm | ⟨pr', hpr', hq'⟩)
      · rcases hm with hq' | hm
        · exact Or.inr ⟨pr, List.mem_cons_self pr pairs, hq'⟩
        · exact Or.inl hm
      · exact Or.inr ⟨pr', List.mem_cons_of_mem _ hpr', hq'⟩
    · rintro (hm | ⟨pr', hpr', hq'⟩)
      · exact Or.inl (Or.inr hm)
      · rcases List.mem_cons.mp hpr' with rfl | hpr'
        · exact Or.inl (Or.inl hq')
        · exact Or.inr ⟨pr', hpr', hq'⟩

theorem buildPairIndex_get_mem (pairs : List (List String × List String))
    (q x : String) :
    x ∈ (mapGet? (buildPairIndex pairs) q).getD [] ↔
      ∃ pr ∈ pairs, q ∈ pr.1 ∧ x ∈ pr.2 := by
  rw [buildPairIndex, buildFold_get_mem]
  simp [mapGet?]

theorem buildPairIndex_has (pairs : List (List String × List String)) (q : String) :
    mapHas (buildPairIndex pairs) q = true ↔ ∃ pr ∈ pairs, q ∈ pr.1 := by
  rw [buildPairIndex, buildFold_has]
  simp [mapHas, mapGet?]

theorem buildPairIndex_keys_nodup (pairs : List (List String × List String)) :
    (mapKeys (buildPairIndex pairs)).Nodup := by
  rw [buildPairIndex]
  suffices h : ∀ (m : JMap (List String)), (mapKeys m).Nodup →
      (mapKeys (pairs.foldl
        (fun m pr => pr.1.foldl (fun m k => indexAdd m k pr.2) m) m)).Nodup from
    h [] List.nodup_nil
  induction pairs with
  | nil => exact fun m h => h
  | cons pr pairs ih =>
    intro m hm
    rw [List.foldl_cons]
    exact ih _ (rowFold_keys_nodup pr.1 pr.2 m hm)

theorem buildPairIndex_values_nodup (pairs : List (List String × List String))
    (q : String) : ((mapGet? (buildPairIndex pairs) q).getD []).Nodup := by
  rw [buildPairIndex]
  suffices h : ∀ (m : JMap (List String)),
      (∀ q, ((mapGet? m q).getD []).Nodup) → ∀ q,
      ((mapGet? (pairs.foldl
        (fun m pr => pr.1.foldl (fun m k => indexAdd m k pr.2) m) m) q).getD
        []).Nodup from
    h [] (fun _ => List.nodup_nil) q
  induction pairs with
  | nil => exact fun m h => h
  | cons pr pairs ih =>
    intro m hm
    rw [List.foldl_cons]
    exact ih _ (rowFold_values_nodup pr.1 pr.2 m hm)

theorem getRowsByPen_eq (rows : List XRow) (tabletDefs penDefs : JMap DeviceDef) :
    getRowsByPen rows tabletDefs penDefs =
      List.insertionSort (rowLeByPen penDefs)
        ((buildPairIndex (rows.map (fun r => (rawPens r, rawTablets r)))).map
          (fun e => DisplayRow.mk (sortItems e.2 tabletDefs) [e.1])) := rfl

theorem getRowsByTablet_eq (rows : List XRow) (tabletDefs penDefs : JMap DeviceDef) :
    getRowsByTablet rows tabletDefs penDefs =
      List.insertionSort (rowLeByTablet tabletDefs)
        ((buildPairIndex (rows.map (fun r => (rawTablets r, rawPens r)))).map
          (fun e => DisplayRow.mk [e.1] (sortItems e.2 penDefs))) := rfl

/-- C8: the tablet ids appearing across the display rows of the `by-tablet`
projection are exactly the distinct tablet ids occurring across all source
rows — aggregation loses no tablet and invents none. -/
theorem c8_by_tablet_complete :
    ∀ (rows : List XRow) (tDefs pDefs : JMap DeviceDef),
      ((getRowsByTablet rows tDefs pDefs).flatMap DisplayRow.tablets).toFinset =
        (rows.flatMap rawTablets).toFinset := by
  intro rows tDefs pDefs
  ext x
  simp only [List.mem_toFinset, List.mem_flatMap]
  rw [getRowsByTablet_eq]
  constructor
  · rintro ⟨dr, hdr, hx⟩
    have hdr' := (List.perm_insertionSort (rowLeByTablet tDefs) _).mem_iff.mp hdr
    rcases List.mem_map.mp hdr' with ⟨e, he, rfl⟩
    rcases List.mem_singleton.mp hx with rfl
    have hhas : mapHas (buildPairIndex
        (rows.map (fun r => (rawTablets r, rawPens r)))) e.1 = true :=
      (mapHas_iff_mem_keys _ _).mpr (List.mem_map.mpr ⟨e, he, rfl⟩)
    rcases (buildPairIndex_has _ _).mp hhas with ⟨pr, hpr, hq⟩
    rcases List.mem_map.mp hpr with ⟨r, hr, rfl⟩
    exact ⟨r, hr, hq⟩
  · rintro ⟨r, hr, hx⟩
    have hhas : mapHas (buildPairIndex
        (rows.map (fun r => (rawTablets r, rawPens r)))) x = true :=
      (buildPairIndex_has _ _).mpr
        ⟨(rawTablets r, rawPens r), List.mem_map.mpr ⟨r, hr, rfl⟩, hx⟩
    rcases List.mem_map.mp ((mapHas_iff_mem_keys _ _).mp hhas) with ⟨e, he, rfl⟩
    refine ⟨DisplayRow.mk [e.1] (sortItems e.2 pDefs), ?_, List.mem_singleton_self _⟩
    exact (List.perm_insertionSort (rowLeByTablet tDefs) _).mem_iff.mpr
      (List.mem_map.mpr ⟨e, he, rfl⟩)

/-- C7: the `by-pen` projection produces exactly one display row per distinct
pen id occurring in any source row, with `pens` the singleton of that pen and
`tablets` the sorted duplicate-free union of the tablet ids of every source
row containing the pen; the rows are sorted by the pen key's
(family id per penDefs, pen id) order via `compareDeviceIds`. -/
theorem c7_by_pen_spec :
    ∀ (rows : List XRow) (tDefs pDefs : JMap DeviceDef),
      (∀ dr ∈ getRowsByPen rows tDefs pDefs, ∃ p, dr.pens = [p]) ∧
      (∀ p, (∃ dr ∈ getRowsByPen rows tDefs pDefs, dr.pens = [p]) ↔
        ∃ r ∈ rows, p ∈ rawPens r) ∧
      ((getRowsByPen rows tDefs pDefs).map DisplayRow.pens).Nodup ∧
      (∀ dr ∈ getRowsByPen rows tDefs pDefs, ∀ p, dr.pens = [p] →
        ((∀ t, t ∈ dr.tablets ↔ ∃ r ∈ rows, p ∈ rawPens r ∧ t ∈ rawTablets r) ∧
          dr.tablets.Nodup ∧ List.Pairwise (devLe tDefs) dr.tablets)) ∧
      List.Pairwise (rowLeByPen pDefs) (getRowsByPen rows tDefs pDefs) := by
  intro rows tDefs pDefs
  have hperm := List.perm_insertionSort (rowLeByPen pDefs)
    ((buildPairIndex (rows.map (fun r => (rawPens r, rawTablets r)))).map
      (fun e => DisplayRow.mk (sortItems e.2 tDefs) [e.1]))
  have hknd := buildPairIndex_keys_nodup
    (rows.map (fun r => (rawPens r, rawTablets r)))
  refine ⟨?_, ?_, ?_, ?_, ?_⟩
  · intro dr hdr
    rw [getRowsByPen_eq] at hdr
    rcases List.mem_map.mp (hperm.mem_iff.mp hdr) with ⟨e, _, rfl⟩
    exact ⟨e.1, rfl⟩
  · intro p
    constructor
    · rintro ⟨dr, hdr, hpens⟩
      rw [getRowsByPen_eq] at hdr
      rcases List.mem_map.mp (hperm.mem_iff.mp hdr) with ⟨e, he, rfl⟩
      rcases List.cons_eq_cons.mp hpens with ⟨rfl, -⟩
      have hhas : mapHas (buildPairIndex
          (rows.map (fun r => (rawPens r, rawTablets r)))) e.1 = true :=
        (mapHas_iff_mem_keys _ _).mpr (List.mem_map.mpr ⟨e, he, rfl⟩)
      rcases (buildPairIndex_has _ _).mp hhas with ⟨pr, hpr, hq⟩
      rcases List.mem_map.mp hpr with ⟨r, hr, rfl⟩
      exact ⟨r, hr, hq⟩
    · rintro ⟨r, hr, hp⟩
      have hhas : mapHas (buildPairIndex
          (rows.map (fun r => (rawPens r, rawTablets r)))) p = true :=
        (buildPairIndex_has _ _).mpr
          ⟨(rawPens r, rawTablets r), List.mem_map.mpr ⟨r, hr, rfl⟩, hp⟩
      rcases List.mem_map.mp ((mapHas_iff_mem_keys _ _).mp hhas) with ⟨e, he, rfl⟩
      refine ⟨DisplayRow.mk (sortItems e.2 tDefs) [e.1], ?_, rfl⟩
      rw [getRowsByPen_eq]
      exact hperm.mem_iff.mpr (List.mem_map.mpr ⟨e, he, rfl⟩)
  · have h1 : ((getRowsByPen rows tDefs pDefs).map DisplayRow.pens).Perm
        (((buildPairIndex (rows.map (fun r => (rawPens r, rawTablets r)))).map
          (fun e => DisplayRow.mk (sortItems e.2 tDefs) [e.1])).map
            DisplayRow.pens) := by
      rw [getRowsByPen_eq]
      exact hperm.map DisplayRow.pens
    have h2 : (((buildPairIndex (rows.map (fun r => (rawPens r, rawTablets r)))).map
        (fun e => DisplayRow.mk (sortItems e.2 tDefs) [e.1])).map DisplayRow.pens) =
        (mapKeys (buildPairIndex
          (rows.map (fun r => (rawPens r, rawTablets r))))).map (fun k => [k]) := by
      rw [List.map_map, mapKeys, List.map_map]
      rfl
    rw [h1.nodup_iff, h2]
    exact hknd.map fun a b hab => List.cons_eq_cons.mp hab |>.1
  · intro dr hdr p hpens
    rw [getRowsByPen_eq] at hdr
    rcases List.mem_map.mp (hperm.mem_iff.mp hdr) with ⟨e, he, rfl⟩
    rcases List.cons_eq_cons.mp hpens with ⟨rfl, -⟩
    have hget : mapGet? (buildPairIndex
        (rows.map (fun r => (rawPens r, rawTablets r)))) e.1 = some e.2 :=
      mapGet?_of_nodup _ e.1 e.2 hknd he
    have hval : e.2 = (mapGet? (buildPairIndex
        (rows.map (fun r => (rawPens r, rawTablets r)))) e.1).getD [] := by
      rw [hget]
      rfl
    refine ⟨?_, ?_, sortItems_sorted _ _⟩
    · intro t
      rw [show (DisplayRow.mk (sortItems e.2 tDefs) [e.1]).tablets =
        sortItems e.2 tDefs from rfl, sortItems_mem, hval, buildPairIndex_get_mem]
      constructor
      · rintro ⟨pr, hpr, hq, ht⟩
        rcases List.mem_map.mp hpr with ⟨r, hr, rfl⟩
        exact ⟨r, hr, hq, ht⟩
      · rintro ⟨r, hr, hp, ht⟩
        exact ⟨(rawPens r, rawTablets r), List.mem_map.mpr ⟨r, hr, rfl⟩, hp, ht⟩
    · refine sortItems_nodup _ _ ?_
      rw [hval]
      exact buildPairIndex_values_nodup _ _
  · rw [getRowsByPen_eq]
    exact List.sorted_insertionSort (rowLeByPen pDefs) _

/-- C7 witness: on two concrete rows sharing pen `P1`, the projection yields
one singleton-pen row per pen, and `P1`'s row aggregates the tablets of both
rows. -/
theorem c7_by_pen_spec_witness :
    (∃ p, (DisplayRow.mk ["T1", "T2", "T3"] ["P1"]).pens = [p]) ∧
      "T3" ∈ (DisplayRow.mk ["T1", "T2", "T3"] ["P1"]).tablets ∧
      (∃ dr ∈ getRowsByPen
          [⟨[⟨"tablet", "T2 T1"⟩, ⟨"pen", "P1"⟩]⟩,
            ⟨[⟨"tablet", "T3"⟩, ⟨"pen", "P1 P0"⟩]⟩] [] [],
        dr.pens = ["P0"]) := by
  refine ⟨?_, ?_, ?_⟩
  · exact (c7_by_pen_spec
      [⟨[⟨"tablet", "T2 T1"⟩, ⟨"pen", "P1"⟩]⟩, ⟨[⟨"tablet", "T3"⟩, ⟨"pen", "P1 P0"⟩]⟩]
      [] []).1 ⟨["T1", "T2", "T3"], ["P1"]⟩ (by decide)
  · exact (((c7_by_pen_spec
      [⟨[⟨"tablet", "T2 T1"⟩, ⟨"pen", "P1"⟩]⟩, ⟨[⟨"tablet", "T3"⟩, ⟨"pen", "P1 P0"⟩]⟩]
      [] []).2.2.2.1 ⟨["T1", "T2", "T3"], ["P1"]⟩ (by decide) "P1" rfl).1 "T3").mpr
      ⟨⟨[⟨"tablet", "T3"⟩, ⟨"pen", "P1 P0"⟩]⟩, by decide, by decide, by decide⟩
  · exact ((c7_by_pen_spec
      [⟨[⟨"tablet", "T2 T1"⟩, ⟨"pen", "P1"⟩]⟩, ⟨[⟨"tablet", "T3"⟩, ⟨"pen", "P1 P0"⟩]⟩]
      [] []).2.1 "P0").mpr
      ⟨⟨[⟨"tablet", "T3"⟩, ⟨"pen", "P1 P0"⟩]⟩, by decide, by decide⟩
